import Mathlib

/-!
# circleci-cli: the VCS remote inferencer and the context API client

A shallow embedding of `git/git.go`, `api/context.go` and `cmd/context.go`.

* Go `error` values are `Option GoError` (`none` is `nil`); `errors.Wrap` keeps
  `nil` and otherwise prefixes the message with `msg ++ ": "`.
* The two regular expressions of `git.go` are terms of `Regex`; `run` is the
  backtracking (leftmost-first) matcher whose first result is the match Go's
  `regexp` package reports.  Strings are sequences of characters.
* The GraphQL transport (`client.Client.Run`) is a collaborator: it is a field of
  `Client` that answers a request given the requests sent before it, and every
  operation threads the list of requests sent so far.
-/

namespace CircleCI

set_option maxRecDepth 100000

/-! ## Go errors -/

/-- Error values: one created with a message (`errors.New`, `fmt.Errorf`, or
handed over by a collaborator), or one wrapped by `errors.Wrap`/`errors.Wrapf`. -/
inductive GoError where
  | new (msg : String)
  | wrap (cause : GoError) (msg : String)
  deriving DecidableEq

/-- The method `Error()`: a wrapped error prints its message, `": "`, its cause. -/
def GoError.Error : GoError → String
  | .new m => m
  | .wrap c m => m ++ ": " ++ c.Error

/-- The function `errors.Wrap(err, msg)`: `nil` when `err` is `nil`. -/
def errorsWrap (err : Option GoError) (msg : String) : Option GoError :=
  match err with
  | none => none
  | some e => some (.wrap e msg)

/-- Either a normal return or a Go run-time panic carrying its message. -/
inductive Outcome (α : Type) where
  | returned (a : α)
  | panicked (msg : String)
  deriving DecidableEq

/-! ## Regular expressions (the fragment `git.go` uses) -/

/-- Syntax of the patterns: `^`, a literal character, `.`, concatenation,
`a|b`, greedy `a*`, greedy `a?` and a numbered capture group. -/
inductive Regex where
  | empty
  | bol
  | char (c : Char)
  | anyNotNL
  | seq (a b : Regex)
  | alt (a b : Regex)
  | star (a : Regex)
  | opt (a : Regex)
  | group (n : Nat) (a : Regex)

/-- A matcher thread: characters consumed since the start of the text, the
text still ahead, and the capture groups set so far. -/
structure MState where
  pos : Nat
  rest : List Char
  caps : Nat → Option (List Char)

/-- Record the text of capture group `n`. -/
def setCap (caps : Nat → Option (List Char)) (n : Nat) (txt : List Char) :
    Nat → Option (List Char) :=
  fun i => if i = n then some txt else caps i

/-- Greedy iteration: one more round of `step` (which must consume text) is
preferred over stopping.  `fuel` bounds the rounds by the text left. -/
def starLoop (step : MState → List MState) : Nat → MState → List MState
  | 0, s => [s]
  | fuel + 1, s =>
    ((step s).filter (fun t => decide (t.rest.length < s.rest.length))).flatMap
      (starLoop step fuel) ++ [s]

/-- All ways to match a pattern from a thread, most preferred first
(the order in which a backtracking matcher tries them). -/
def run : Regex → MState → List MState
  | .empty, s => [s]
  | .bol, s => if s.pos = 0 then [s] else []
  | .char c, s =>
    match s.rest with
    | x :: xs => if x = c then [⟨s.pos + 1, xs, s.caps⟩] else []
    | [] => []
  | .anyNotNL, s =>
    match s.rest with
    | x :: xs => if x = '\n' then [] else [⟨s.pos + 1, xs, s.caps⟩]
    | [] => []
  | .seq a b, s => (run a s).flatMap (run b)
  | .alt a b, s => run a s ++ run b s
  | .star a, s => starLoop (run a) s.rest.length s
  | .opt a, s => run a s ++ [s]
  | .group n a, s =>
    (run a s).map (fun t => ⟨t.pos, t.rest, setCap t.caps n (s.rest.take (t.pos - s.pos))⟩)

/-- A literal run of characters. -/
def lits : List Char → Regex
  | [] => .empty
  | c :: cs => .seq (.char c) (lits cs)

/-- A literal string. -/
def str (s : String) : Regex := lits s.data

/-- Leftmost match: try the pattern at the current offset, else one further. -/
def searchFrom (re : Regex) : Nat → List Char → Option (Nat × List Char × MState)
  | pos, input =>
    match (run re ⟨pos, input, fun _ => none⟩).head? with
    | some st => some (pos, input, st)
    | none =>
      match input with
      | [] => none
      | _ :: cs => searchFrom re (pos + 1) cs

/-- The method `FindStringSubmatch` of a pattern with `ngroups` groups: `nil`
(`none`) when there is no match, else the matched text followed by the text
of each group (empty for a group that took no part). -/
def FindStringSubmatch (re : Regex) (ngroups : Nat) (s : String) : Option (List String) :=
  match searchFrom re 0 s.data with
  | none => none
  | some (start, input, st) =>
    some (String.mk (input.take (st.pos - start)) ::
      (List.range ngroups).map (fun i => String.mk ((st.caps (i + 1)).getD [])))

/-! ## git/git.go -/

abbrev VcsType := String

def GitHub : VcsType := "GITHUB"

def BitBucket : VcsType := "BITBUCKET"

/-- The alternation `(github\.com|bitbucket\.org)`, capture group 1. -/
def domainGroup : Regex :=
  .group 1 (.alt (str "github.com") (str "bitbucket.org"))

/-- The pattern `^git@(github\.com|bitbucket\.org):(.*)/`. -/
def ssh : Regex :=
  .seq .bol (.seq (str "git@") (.seq domainGroup
    (.seq (.char ':') (.seq (.group 2 (.star .anyNotNL)) (.char '/')))))

/-- The pattern `https://(?:.*@)?(github\.com|bitbucket\.org)/(.*)/`. -/
def https : Regex :=
  .seq (str "https://") (.seq (.opt (.seq (.star .anyNotNL) (.char '@'))) (.seq domainGroup
    (.seq (.char '/') (.seq (.group 2 (.star .anyNotNL)) (.char '/')))))

/-- The slice `matches` as `%v` prints it. -/
def formatSlice (ms : List String) : String := "[" ++ " ".intercalate ms ++ "]"

/-- The function `InferOrganizationFromGitRemotes`; `cmd` is what
`exec.Command("git", "remote", "get-url", "origin").Output()` gave. -/
def InferOrganizationFromGitRemotes (cmd : Except GoError String) :
    Outcome (VcsType × String × Option GoError) :=
  match cmd with
  | .error err =>
    .returned ("", "", errorsWrap (some err) "Error finding the \x27origin\x27 git remote")
  | .ok output =>
    let matches0 := FindStringSubmatch ssh 2 output
    let matches1 := match matches0 with
      | none => FindStringSubmatch https 2 output
      | some m => some m
    match matches1 with
    | none =>
      .returned ("", "", some (.new
        "Unable to determine VCS information from git \x27origin\x27 remote"))
    | some ms =>
      match ms[1]?, ms[2]? with
      | some domain, some org =>
        if domain = "github.com" then .returned (GitHub, org, none)
        else if domain = "bitbucket.org" then .returned (BitBucket, org, none)
        else .panicked ("regexp error: domain=" ++ domain ++ " org=" ++ org ++
          " matches=" ++ formatSlice ms)
      | _, _ => .panicked "index out of range"

/-! ## The GraphQL transport (package `client`, a collaborator) -/

/-- A request variable: a string, or a struct sent as an object whose field
names are the struct's `json` tags. -/
inductive Var where
  | str (s : String)
  | obj (fields : List (String × String))
  deriving DecidableEq

/-- What `client.NewRequest`, `SetToken` and `Var` build. -/
structure Request where
  query : String
  token : String
  vars : List (String × Var)
  deriving DecidableEq

/-! ## api/context.go -/

structure Resource where
  Variable : String
  CreatedAt : String
  TruncatedValue : String
  deriving DecidableEq

/-- The struct `Context` (its `Groups` field is an empty struct). -/
structure Context where
  ID : String
  Name : String
  CreatedAt : String
  Resources : List Resource
  deriving DecidableEq

structure Edge where
  Node : Context
  deriving DecidableEq

structure ContextList where
  Edges : List Edge
  deriving DecidableEq

structure OrganizationData where
  Id : String
  Contexts : ContextList
  deriving DecidableEq

structure ContextsQueryResponse where
  Organization : OrganizationData
  deriving DecidableEq

/-- The `Error struct { Type string }` of a mutation payload. -/
structure ErrorField where
  Typ : String
  deriving DecidableEq

structure CreateContextPayload where
  Error : ErrorField
  deriving DecidableEq

structure CreateContextResponse where
  CreateContext : CreateContextPayload
  deriving DecidableEq

structure RemoveEnvironmentVariablePayload where
  Context : Context
  deriving DecidableEq

structure RemoveEnvironmentVariableResponse where
  RemoveEnvironmentVariable : RemoveEnvironmentVariablePayload
  deriving DecidableEq

structure StoreEnvironmentVariablePayload where
  Context : Context
  Error : ErrorField
  deriving DecidableEq

structure StoreEnvironmentVariableResponse where
  StoreEnvironmentVariable : StoreEnvironmentVariablePayload
  deriving DecidableEq

/-- The client: its token, and `Run` at each of the five response types the
program decodes into.  `Run` answers a request given the requests sent before
it, with an error or the decoded response. -/
structure Client where
  Token : String
  runContexts : List Request → Request → Except GoError ContextsQueryResponse
  runCreateContext : List Request → Request → Except GoError CreateContextResponse
  runRemoveEnvVar : List Request → Request → Except GoError RemoveEnvironmentVariableResponse
  runStoreEnvVar : List Request → Request → Except GoError StoreEnvironmentVariableResponse
  runDeleteContext : List Request → Request → Except GoError Unit

def createContextQuery : String :=
  "\n\tmutation CreateContext($input: CreateContextInput!) \x7b\n" ++
  "\t\tcreateContext(input: $input) \x7b\n\t\t  ...CreateButton\n\t\t\x7d\n" ++
  "\t  \x7d\n\n\t  fragment CreateButton on CreateContextPayload \x7b\n" ++
  "\t\terror \x7b\n\t\t  type\n\t\t\x7d\n\t  \x7d\n\n\t"

def listContextsQuery : String :=
  "\n\tquery ContextsQuery($orgName: String!, $vcsType: VCSType!) \x7b\n" ++
  "\t\torganization(name: $orgName, vcsType: $vcsType) \x7b\n\t\t\tid\n" ++
  "\t\t\tcontexts \x7b\n\t\t\t\tedges \x7b\n\t\t\t\t\tnode \x7b\n" ++
  "\t\t\t\t\t\t...Context\n\t\t\t\t\t\x7d\n\t\t\t\t\x7d\n\t\t\t\x7d\n\t\t\x7d\n" ++
  "\t\x7d\n\n\tfragment Context on Context \x7b\n\t\tid\n\t\tname\n\t\tcreatedAt\n" ++
  "\t\tgroups \x7b\n\t\t\tedges \x7b\n\t\t\t\tnode \x7b\n" ++
  "\t\t\t\t\t...SecurityGroups\n\t\t\t\t\x7d\n\t\t\t\x7d\n\t\t\x7d\n" ++
  "\t\tresources \x7b\n\t\t\t...EnvVars\n\t\t\x7d\n\t\x7d\n\n" ++
  "\tfragment EnvVars on EnvironmentVariable \x7b\n\t\tvariable\n\t\tcreatedAt\n" ++
  "\t\ttruncatedValue\n\t\x7d\n\n\tfragment SecurityGroups on Group \x7b\n\t\tid\n" ++
  "\t\tname\n\t\x7d\n\t"

def deleteEnvVarQuery : String :=
  "\n\tmutation DeleteEnvVar($input: RemoveEnvironmentVariableInput!) \x7b\n" ++
  "\t\tremoveEnvironmentVariable(input: $input) \x7b\n\t\t\tcontext \x7b\n" ++
  "\t\t\t\tid\n\t\t\t\tresources \x7b\n\t\t\t\t\t...EnvVars\n\t\t\t\t\x7d\n" ++
  "\t\t\t\x7d\n\t\t\x7d\n\t\x7d\n\n\tfragment EnvVars on EnvironmentVariable \x7b\n" ++
  "\t\tvariable\n\t\tcreatedAt\n\t\ttruncatedValue\n\t\x7d"

def storeEnvVarQuery : String :=
  "\n\tmutation CreateEnvVar($input: StoreEnvironmentVariableInput!) \x7b\n" ++
  "\t\tstoreEnvironmentVariable(input: $input) \x7b\n\t\t  context \x7b\n\t\t\tid\n" ++
  "\t\t\tresources \x7b\n\t\t\t  ...EnvVars\n\t\t\t\x7d\n\t\t  \x7d\n" ++
  "\t\t  ...CreateEnvVarButton\n\t\t\x7d\n\t  \x7d\n\n" ++
  "\t  fragment EnvVars on EnvironmentVariable \x7b\n\t\tvariable\n\t\tcreatedAt\n" ++
  "\t\ttruncatedValue\n\t  \x7d\n\n" ++
  "\t  fragment CreateEnvVarButton on StoreEnvironmentVariablePayload \x7b\n" ++
  "\t\terror \x7b\n\t\t  type\n\t\t\x7d\n\t  \x7d"

def deleteContextQuery : String :=
  "\n\tmutation DeleteContext($input: DeleteContextInput!) \x7b\n" ++
  "\t\tdeleteContext(input: $input) \x7b\n\t\t  clientMutationId\n\t\t\x7d\n" ++
  "\t  \x7d"

/-- The request `ListContexts` sends. -/
def listRequest (cl : Client) (orgName : String) (vcsType : VcsType) : Request :=
  ⟨listContextsQuery, cl.Token, [("orgName", .str orgName), ("vcsType", .str vcsType)]⟩

/-- The function `ListContexts`; `tr` is the list of requests sent so far. -/
def ListContexts (cl : Client) (orgName : String) (vcsType : VcsType) (tr : List Request) :
    Except GoError ContextsQueryResponse × List Request :=
  let request := listRequest cl orgName vcsType
  match cl.runContexts tr request with
  | .error err =>
    (.error (.wrap err ("failed to load contexts \x27" ++ err.Error ++ "\x27")), tr ++ [request])
  | .ok response => (.ok response, tr ++ [request])

/-- The mutation `CreateContext` sends. -/
def createRequest (cl : Client) (orgId contextName : String) : Request :=
  ⟨createContextQuery, cl.Token,
    [("input", .obj [("ownerId", orgId), ("ownerType", "ORGANIZATION"),
      ("contextName", contextName)])]⟩

/-- The function `CreateContext`. -/
def CreateContext (cl : Client) (contextName orgName : String) (vcsType : VcsType)
    (tr : List Request) : Option GoError × List Request :=
  match ListContexts cl orgName vcsType tr with
  | (.error err, tr1) => (some err, tr1)
  | (.ok contexts, tr1) =>
    let orgId := contexts.Organization.Id
    let request := createRequest cl orgId contextName
    match cl.runCreateContext tr1 request with
    | .error err => (some err, tr1 ++ [request])
    | .ok response =>
      if response.CreateContext.Error.Typ ≠ "" then
        (some (.new ("Error creating context: " ++ response.CreateContext.Error.Typ)),
          tr1 ++ [request])
      else (none, tr1 ++ [request])

/-- The mutation `DeleteEnvironmentVariable` sends. -/
def deleteEnvVarRequest (cl : Client) (contextId variableName : String) : Request :=
  ⟨deleteEnvVarQuery, cl.Token,
    [("input", .obj [("contextId", contextId), ("variable", variableName)])]⟩

/-- The function `DeleteEnvironmentVariable`. -/
def DeleteEnvironmentVariable (cl : Client) (contextId variableName : String)
    (tr : List Request) : Option GoError × List Request :=
  let request := deleteEnvVarRequest cl contextId variableName
  let err : Option GoError :=
    match cl.runRemoveEnvVar tr request with
    | .error e => some e
    | .ok _ => none
  (errorsWrap err "failed to delete environment varaible", tr ++ [request])

/-- The mutation `StoreEnvironmentVariable` sends. -/
def storeEnvVarRequest (cl : Client) (contextId variableName secretValue : String) : Request :=
  ⟨storeEnvVarQuery, cl.Token,
    [("input", .obj [("contextId", contextId), ("variable", variableName),
      ("value", secretValue)])]⟩

/-- The function `StoreEnvironmentVariable`. -/
def StoreEnvironmentVariable (cl : Client) (contextId variableName secretValue : String)
    (tr : List Request) : Option GoError × List Request :=
  let request := storeEnvVarRequest cl contextId variableName secretValue
  match cl.runStoreEnvVar tr request with
  | .error err =>
    (errorsWrap (some err) "failed to store environment varaible in context", tr ++ [request])
  | .ok response =>
    if response.StoreEnvironmentVariable.Error.Typ ≠ "" then
      (some (.new ("Error storing environment variable: " ++
        response.StoreEnvironmentVariable.Error.Typ)), tr ++ [request])
    else (none, tr ++ [request])

/-- The mutation `DeleteContext` sends. -/
def deleteContextRequest (cl : Client) (contextId : String) : Request :=
  ⟨deleteContextQuery, cl.Token, [("input", .obj [("contextId", contextId)])]⟩

/-- The function `DeleteContext`. -/
def DeleteContext (cl : Client) (contextId : String) (tr : List Request) :
    Option GoError × List Request :=
  let request := deleteContextRequest cl contextId
  let err : Option GoError :=
    match cl.runDeleteContext tr request with
    | .error e => some e
    | .ok _ => none
  (errorsWrap err "failed to delete context", tr ++ [request])

/-! ## cmd/context.go -/

structure Organization where
  name : String
  provider : VcsType
  deriving DecidableEq

/-- An `Organization` under the verb `%s`: its fields between braces. -/
def Organization.format (org : Organization) : String :=
  "\x7b" ++ org.name ++ " " ++ org.provider ++ "\x7d"

/-- The loop of `contextByName`: the node of the first edge with the name. -/
def firstNamed : List Edge → String → Option Context
  | [], _ => none
  | c :: cs, contextName =>
    if c.Node.Name = contextName then some c.Node else firstNamed cs contextName

/-- The function `contextByName`. -/
def contextByName (cl : Client) (org : Organization) (contextName : String)
    (tr : List Request) : Except GoError Context × List Request :=
  match ListContexts cl org.name org.provider tr with
  | (.error err, tr1) => (.error err, tr1)
  | (.ok contexts, tr1) =>
    match firstNamed contexts.Organization.Contexts.Edges contextName with
    | some c => (.ok c, tr1)
    | none =>
      (.error (.new ("Could not find a context named \x27" ++ contextName ++ "\x27 in the \x27" ++
        org.format ++ "\x27 organization.")), tr1)

/-- Standard input: whether it is a character device (a terminal), the text
that can be read from it, and the error that ends the reading (`none` when it
ends with the end of the file). -/
structure Stdin where
  isCharDevice : Bool
  data : String
  failure : Option GoError

/-- The error `io.EOF`. -/
def ioEOF : GoError := .new "EOF"

/-- The call `ioutil.ReadAll(os.Stdin)`: the end of the file is no error. -/
def readAll (stdin : Stdin) : String × Option GoError := (stdin.data, stdin.failure)

/-- Split a text after its first newline, if it has one. -/
def splitLine : List Char → Option (List Char)
  | [] => none
  | c :: cs =>
    if c = '\n' then some [c]
    else match splitLine cs with
      | some l => some (c :: l)
      | none => none

/-- The call `reader.ReadString('\n')`: the text up to and with the first
newline, or all the text and the error that ended it. -/
def readString (stdin : Stdin) : String × Option GoError :=
  match splitLine stdin.data.data with
  | some l => (String.mk l, none)
  | none => (stdin.data, some (stdin.failure.getD ioEOF))

/-- The call `strings.TrimRight(str, "\n")`. -/
def trimRightNewlines (s : String) : String :=
  String.mk (s.data.reverse.dropWhile (fun c => c = '\n')).reverse

/-- The function `readSecretValue` (the prompt it prints is not modelled). -/
def readSecretValue (stdin : Stdin) : String × Option GoError :=
  if stdin.isCharDevice = false then readAll stdin
  else
    let r := readString stdin
    (trimRightNewlines r.1, r.2)

/-- The function `createContext`. -/
def createContext (cl : Client) (org : Organization) (contextName : String)
    (tr : List Request) : Option GoError × List Request :=
  CreateContext cl contextName org.name org.provider tr

/-- The function `removeEnvVar`. -/
def removeEnvVar (cl : Client) (org : Organization) (contextName varName : String)
    (tr : List Request) : Option GoError × List Request :=
  match contextByName cl org contextName tr with
  | (.error err, tr1) => (some err, tr1)
  | (.ok context, tr1) => DeleteEnvironmentVariable cl context.ID varName tr1

/-- The function `storeEnvVar`. -/
def storeEnvVar (cl : Client) (org : Organization) (contextName varName : String)
    (stdin : Stdin) (tr : List Request) : Option GoError × List Request :=
  match contextByName cl org contextName tr with
  | (.error err, tr1) => (some err, tr1)
  | (.ok context, tr1) =>
    match readSecretValue stdin with
    | (_, some err) => (errorsWrap (some err) "Failed to read secret value from stdin", tr1)
    | (secretValue, none) => StoreEnvironmentVariable cl context.ID varName secretValue tr1

/-- The function `deleteContext`. -/
def deleteContext (cl : Client) (org : Organization) (contextName : String)
    (tr : List Request) : Option GoError × List Request :=
  match contextByName cl org contextName tr with
  | (.error err, tr1) => (some err, tr1)
  | (.ok context, tr1) => DeleteContext cl context.ID tr1

/-! ## Concrete transports and inputs for the examples -/

/-- Whether a string occurs inside another. -/
def Contains (s sub : String) : Prop := ∃ pre post : String, s = pre ++ sub ++ post

/-- A List response with the contexts `a` and `b`. -/
def exampleContexts : ContextsQueryResponse :=
  ⟨⟨"org-1", ⟨[⟨⟨"id-a", "a", "2019-01-01", [⟨"KEY", "2019-01-02", "xxxx1234"⟩]⟩⟩,
    ⟨⟨"id-b", "b", "2019-02-01", []⟩⟩]⟩⟩⟩

/-- A transport that answers List with `exampleContexts` and every mutation
with a payload whose error type is `errType`. -/
def exampleClient (errType : String) : Client where
  Token := "token"
  runContexts := fun _ _ => .ok exampleContexts
  runCreateContext := fun _ _ => .ok ⟨⟨⟨errType⟩⟩⟩
  runRemoveEnvVar := fun _ _ => .ok ⟨⟨⟨"id-a", "a", "2019-01-01", []⟩⟩⟩
  runStoreEnvVar := fun _ _ => .ok ⟨⟨⟨"id-a", "a", "2019-01-01", []⟩, ⟨errType⟩⟩⟩
  runDeleteContext := fun _ _ => .ok ()

/-- A transport that answers List with `exampleContexts` and whose every
mutation fails with the error `boom`. -/
def failingClient : Client where
  Token := "token"
  runContexts := fun _ _ => .ok exampleContexts
  runCreateContext := fun _ _ => .error (.new "boom")
  runRemoveEnvVar := fun _ _ => .error (.new "boom")
  runStoreEnvVar := fun _ _ => .error (.new "boom")
  runDeleteContext := fun _ _ => .error (.new "boom")

def exampleOrg : Organization := ⟨"circleci", GitHub⟩

/-- A terminal on which the input ends before a newline is typed. -/
def closedTerminal : Stdin := ⟨true, "", none⟩

/-- A transport that cannot be reached: every call fails with `no route`. -/
def offlineClient : Client where
  Token := "token"
  runContexts := fun _ _ => .error (.new "no route")
  runCreateContext := fun _ _ => .error (.new "no route")
  runRemoveEnvVar := fun _ _ => .error (.new "no route")
  runStoreEnvVar := fun _ _ => .error (.new "no route")
  runDeleteContext := fun _ _ => .error (.new "no route")

/-- A pipe that delivers the text `secret`. -/
def secretPipe : Stdin := ⟨false, "secret", none⟩

/-! ## Auxiliary definitions for the proofs about the patterns -/

/-- Threads after `.*`, longest first. -/
def dotStar (c : Nat → Option (List Char)) : Nat → List Char → List MState
  | p, [] => [⟨p, [], c⟩]
  | p, x :: xs => (if x = '\n' then [] else dotStar c (p + 1) xs) ++ [⟨p, x :: xs, c⟩]

/-- Threads after `.*` followed by the character `d`, where a thread that
leaves `.*` at offset `q` carries the groups `g q`. -/
def afterStar (d : Char) (g : Nat → Nat → Option (List Char)) : Nat → List Char → List MState
  | _, [] => []
  | p, x :: xs =>
    (if x = '\n' then [] else afterStar d g (p + 1) xs) ++
      (if x = d then [⟨p + 1, xs, g p⟩] else [])

/-- Whether no capture group numbered `n` occurs in a pattern. -/
def Regex.noGroup (n : Nat) : Regex → Bool
  | .empty => true
  | .bol => true
  | .char _ => true
  | .anyNotNL => true
  | .seq a b => a.noGroup n && b.noGroup n
  | .alt a b => a.noGroup n && b.noGroup n
  | .star a => a.noGroup n
  | .opt a => a.noGroup n
  | .group m a => m != n && a.noGroup n

/-- A name free of `/`, `@`, `:` and newline (a user, organization or repository name). -/
def plainName (s : String) : Prop :=
  ∀ c ∈ s.data, c ≠ '/' ∧ c ≠ '@' ∧ c ≠ ':' ∧ c ≠ '\n'

/-- The provider the switch of `InferOrganizationFromGitRemotes` maps a domain to. -/
def providerOf (host : String) : VcsType :=
  if host = "github.com" then GitHub else BitBucket

instance : DecidablePred plainName := fun s =>
  inferInstanceAs (Decidable (∀ c ∈ s.data, c ≠ '/' ∧ c ≠ '@' ∧ c ≠ ':' ∧ c ≠ '\n'))


/-! ## The matcher on the patterns of `git.go` -/

theorem run_char_cons (d x : Char) (p : Nat) (xs : List Char) (c : Nat → Option (List Char)) :
    run (.char d) ⟨p, x :: xs, c⟩ = if x = d then [⟨p + 1, xs, c⟩] else [] := rfl

theorem run_char_nil (d : Char) (p : Nat) (c : Nat → Option (List Char)) :
    run (.char d) ⟨p, [], c⟩ = [] := rfl

theorem run_any_cons (x : Char) (p : Nat) (xs : List Char) (c : Nat → Option (List Char)) :
    run .anyNotNL ⟨p, x :: xs, c⟩ = if x = '\n' then [] else [⟨p + 1, xs, c⟩] := rfl

theorem run_any_nil (p : Nat) (c : Nat → Option (List Char)) :
    run .anyNotNL ⟨p, [], c⟩ = [] := rfl

theorem run_seq (a b : Regex) (s : MState) :
    run (.seq a b) s = (run a s).flatMap (run b) := rfl

theorem run_alt (a b : Regex) (s : MState) : run (.alt a b) s = run a s ++ run b s := rfl

theorem run_opt (a : Regex) (s : MState) : run (.opt a) s = run a s ++ [s] := rfl

theorem run_empty (s : MState) : run .empty s = [s] := rfl

theorem run_bol (s : MState) : run .bol s = if s.pos = 0 then [s] else [] := rfl

theorem run_group (n : Nat) (a : Regex) (s : MState) :
    run (.group n a) s = (run a s).map
      (fun t => ⟨t.pos, t.rest, setCap t.caps n (s.rest.take (t.pos - s.pos))⟩) := rfl

theorem starLoop_any (c : Nat → Option (List Char)) :
    ∀ (fuel p : Nat) (r : List Char), r.length ≤ fuel →
      starLoop (run .anyNotNL) fuel ⟨p, r, c⟩ = dotStar c p r := by
  intro fuel
  induction fuel with
  | zero =>
    intro p r h
    have : r = [] := List.eq_nil_of_length_eq_zero (Nat.le_zero.mp h)
    subst this
    simp [starLoop, dotStar]
  | succ n ih =>
    intro p r h
    cases r with
    | nil => simp [starLoop, dotStar, run_any_nil]
    | cons x xs =>
      have hx : xs.length ≤ n := by simpa using h
      by_cases hnl : x = '\n'
      · simp [starLoop, dotStar, run_any_cons, hnl]
      · simp [starLoop, dotStar, run_any_cons, hnl, ih (p + 1) xs hx]

theorem run_star_any (s : MState) :
    run (.star .anyNotNL) s = dotStar s.caps s.pos s.rest := by
  cases s with
  | mk p r c => exact starLoop_any c r.length p r (le_refl _)

theorem dotStar_then_char (d : Char) (c : Nat → Option (List Char)) :
    ∀ (r : List Char) (p : Nat),
      (dotStar c p r).flatMap (run (.char d)) = afterStar d (fun _ => c) p r := by
  intro r
  induction r with
  | nil => intro p; simp [dotStar, afterStar, run_char_nil]
  | cons x xs ih =>
    intro p
    by_cases hd : x = d
    · subst hd
      by_cases hnl : x = '\n' <;>
        simp [dotStar, afterStar, run_char_cons, hnl, ih, List.flatMap_append]
    · by_cases hnl : x = '\n' <;>
        simp [dotStar, afterStar, run_char_cons, hnl, hd, ih, List.flatMap_append]

theorem dotStar_group_then_char (d : Char) (n : Nat) (c : Nat → Option (List Char))
    (f : Nat → List Char) :
    ∀ (r : List Char) (p : Nat),
      ((dotStar c p r).map (fun t => (⟨t.pos, t.rest, setCap t.caps n (f t.pos)⟩ : MState))).flatMap
        (run (.char d)) = afterStar d (fun q => setCap c n (f q)) p r := by
  intro r
  induction r with
  | nil => intro p; simp [dotStar, afterStar, run_char_nil]
  | cons x xs ih =>
    intro p
    by_cases hd : x = d
    · subst hd
      by_cases hnl : x = '\n' <;>
        simp [dotStar, afterStar, run_char_cons, hnl, ih, List.flatMap_append]
    · by_cases hnl : x = '\n' <;>
        simp [dotStar, afterStar, run_char_cons, hnl, hd, ih, List.flatMap_append]

theorem afterStar_of_not_mem (d : Char) (g : Nat → Nat → Option (List Char)) :
    ∀ (r : List Char) (p : Nat), d ∉ r → afterStar d g p r = [] := by
  intro r
  induction r with
  | nil => intro p _; rfl
  | cons x xs ih =>
    intro p h
    have h1 : ¬ x = d := fun e => h (by simp [e])
    have h2 : d ∉ xs := fun e => h (by simp [e])
    simp [afterStar, h1, ih _ h2]

theorem afterStar_single (d : Char) (g : Nat → Nat → Option (List Char)) (b : List Char)
    (hb : d ∉ b) :
    ∀ (a : List Char) (p : Nat), (∀ x ∈ a, x ≠ '\n' ∧ x ≠ d) →
      afterStar d g p (a ++ d :: b) = [⟨p + a.length + 1, b, g (p + a.length)⟩] := by
  intro a
  induction a with
  | nil => intro p _; simp [afterStar, afterStar_of_not_mem d g b _ hb]
  | cons x xs ih =>
    intro p h
    have hx := h x (by simp)
    have hxs : ∀ y ∈ xs, y ≠ '\n' ∧ y ≠ d := fun y hy => h y (by simp [hy])
    have e : p + 1 + xs.length = p + (xs.length + 1) := by omega
    simp [afterStar, hx.1, hx.2, ih (p + 1) hxs, e]

theorem run_lits_append (c : Nat → Option (List Char)) :
    ∀ (l r : List Char) (p : Nat), run (lits l) ⟨p, l ++ r, c⟩ = [⟨p + l.length, r, c⟩] := by
  intro l
  induction l with
  | nil => intro r p; simp [lits, run_empty]
  | cons x xs ih =>
    intro r p
    have e : p + 1 + xs.length = p + (xs.length + 1) := by omega
    simp [lits, run_seq, run_char_cons, ih, e]

theorem run_lits_head_ne (c : Nat → Option (List Char)) (a b : Char) (l r : List Char) (p : Nat)
    (h : b ≠ a) : run (lits (a :: l)) ⟨p, b :: r, c⟩ = [] := by
  simp [lits, run_seq, run_char_cons, h]

theorem data_github : "github.com".data = ['g', 'i', 't', 'h', 'u', 'b', '.', 'c', 'o', 'm'] := rfl

theorem data_bitbucket :
    "bitbucket.org".data = ['b', 'i', 't', 'b', 'u', 'c', 'k', 'e', 't', '.', 'o', 'r', 'g'] := rfl

/-- The domain group on a text that starts with `github.com`. -/
theorem run_domainGroup_github (p : Nat) (r : List Char) (c : Nat → Option (List Char)) :
    run domainGroup ⟨p, "github.com".data ++ r, c⟩
      = [⟨p + 10, r, setCap c 1 "github.com".data⟩] := by
  have h1 := run_lits_append c "github.com".data r p
  have h2 : run (lits "bitbucket.org".data) ⟨p, "github.com".data ++ r, c⟩ = [] := by
    rw [data_github, data_bitbucket]
    exact run_lits_head_ne c _ _ _ _ p (by decide)
  simp only [domainGroup, run_group, run_alt, str, h1, h2]
  simp [data_github]

theorem run_domainGroup_bitbucket (p : Nat) (r : List Char) (c : Nat → Option (List Char)) :
    run domainGroup ⟨p, "bitbucket.org".data ++ r, c⟩
      = [⟨p + 13, r, setCap c 1 "bitbucket.org".data⟩] := by
  have h1 := run_lits_append c "bitbucket.org".data r p
  have h2 : run (lits "github.com".data) ⟨p, "bitbucket.org".data ++ r, c⟩ = [] := by
    rw [data_github, data_bitbucket]
    exact run_lits_head_ne c _ _ _ _ p (by decide)
  simp only [domainGroup, run_group, run_alt, str, h1, h2]
  simp [data_bitbucket]

/-- The tail `(.*)/` of both patterns on `org/rest`, `rest` free of `/`. -/
theorem run_orgGroup (p : Nat) (o r : List Char) (c : Nat → Option (List Char))
    (ho : ∀ x ∈ o, x ≠ '\n' ∧ x ≠ '/') (hr : '/' ∉ r) :
    run (.seq (.group 2 (.star .anyNotNL)) (.char '/')) ⟨p, o ++ '/' :: r, c⟩
      = [⟨p + o.length + 1, r, setCap c 2 o⟩] := by
  rw [run_seq, run_group, run_star_any]
  have h := dotStar_group_then_char '/' 2 c (fun q => (o ++ '/' :: r).take (q - p))
    (o ++ '/' :: r) p
  simp only at h ⊢
  rw [h, afterStar_single '/' _ r hr o p ho]
  simp

theorem run_domainGroup_known (host : String)
    (hh : host = "github.com" ∨ host = "bitbucket.org")
    (p : Nat) (r : List Char) (c : Nat → Option (List Char)) :
    run domainGroup ⟨p, host.data ++ r, c⟩ = [⟨p + host.data.length, r, setCap c 1 host.data⟩] := by
  rcases hh with h | h <;> subst h
  · exact run_domainGroup_github p r c
  · exact run_domainGroup_bitbucket p r c

/-- The part `(github\.com|bitbucket\.org)<sep>(.*)/` shared by both patterns. -/
theorem run_hostPath (sep : Char) (host : String)
    (hh : host = "github.com" ∨ host = "bitbucket.org") (p : Nat) (o r : List Char)
    (c : Nat → Option (List Char)) (ho : ∀ x ∈ o, x ≠ '\n' ∧ x ≠ '/') (hr : '/' ∉ r) :
    run (.seq domainGroup (.seq (.char sep) (.seq (.group 2 (.star .anyNotNL)) (.char '/'))))
        ⟨p, host.data ++ sep :: (o ++ '/' :: r), c⟩
      = [⟨p + host.data.length + 1 + o.length + 1, r, setCap (setCap c 1 host.data) 2 o⟩] := by
  rw [run_seq, run_domainGroup_known host hh]
  simp only [List.flatMap_cons, List.flatMap_nil, List.append_nil]
  rw [run_seq, run_char_cons]
  simp only [if_true, List.flatMap_cons, List.flatMap_nil, List.append_nil]
  exact run_orgGroup _ o r _ ho hr

theorem run_ssh_form (host : String) (hh : host = "github.com" ∨ host = "bitbucket.org")
    (o r : List Char) (ho : ∀ x ∈ o, x ≠ '\n' ∧ x ≠ '/') (hr : '/' ∉ r) :
    run ssh ⟨0, "git@".data ++ (host.data ++ ':' :: (o ++ '/' :: r)), fun _ => none⟩
      = [⟨0 + 4 + host.data.length + 1 + o.length + 1, r,
          setCap (setCap (fun _ => none) 1 host.data) 2 o⟩] := by
  unfold ssh
  rw [run_seq, run_bol]
  simp only [if_true, List.flatMap_cons, List.flatMap_nil, List.append_nil]
  rw [run_seq, str, run_lits_append]
  simp only [List.flatMap_cons, List.flatMap_nil, List.append_nil]
  exact run_hostPath ':' host hh _ o r _ ho hr

theorem run_https_form (host : String) (hh : host = "github.com" ∨ host = "bitbucket.org")
    (o r : List Char) (ho : ∀ x ∈ o, x ≠ '\n' ∧ x ≠ '/' ∧ x ≠ '@') (hr : '/' ∉ r) (hr2 : '@' ∉ r) :
    run https ⟨0, "https://".data ++ (host.data ++ '/' :: (o ++ '/' :: r)), fun _ => none⟩
      = [⟨0 + 8 + host.data.length + 1 + o.length + 1, r,
          setCap (setCap (fun _ => none) 1 host.data) 2 o⟩] := by
  unfold https
  rw [run_seq, str, run_lits_append]
  simp only [List.flatMap_cons, List.flatMap_nil, List.append_nil]
  rw [run_seq, run_opt, run_seq, run_star_any, dotStar_then_char, afterStar_of_not_mem]
  · simp only [List.nil_append, List.flatMap_cons, List.flatMap_nil, List.append_nil]
    exact run_hostPath '/' host hh _ o r _ (fun x hx => ⟨(ho x hx).1, (ho x hx).2.1⟩) hr
  · have : '@' ∉ host.data := by rcases hh with h | h <;> subst h <;> decide
    simp only [List.mem_append, List.mem_cons, not_or]
    exact ⟨this, by decide, fun h => (ho _ h).2.2 rfl, by decide, hr2⟩

theorem run_https_user_form (host : String) (hh : host = "github.com" ∨ host = "bitbucket.org")
    (u o r : List Char) (hu : ∀ x ∈ u, x ≠ '\n' ∧ x ≠ '@')
    (ho : ∀ x ∈ o, x ≠ '\n' ∧ x ≠ '/' ∧ x ≠ '@') (hr : '/' ∉ r) (hr2 : '@' ∉ r) :
    (run https ⟨0, "https://".data ++ (u ++ '@' :: (host.data ++ '/' :: (o ++ '/' :: r))),
        fun _ => none⟩).head?
      = some ⟨0 + 8 + u.length + 1 + host.data.length + 1 + o.length + 1, r,
          setCap (setCap (fun _ => none) 1 host.data) 2 o⟩ := by
  unfold https
  rw [run_seq, str, run_lits_append]
  simp only [List.flatMap_cons, List.flatMap_nil, List.append_nil]
  rw [run_seq, run_opt, run_seq, run_star_any, dotStar_then_char, afterStar_single _ _ _ _ u _ hu]
  · simp only [List.cons_append, List.nil_append, List.flatMap_cons]
    rw [run_hostPath '/' host hh _ o r _ (fun x hx => ⟨(ho x hx).1, (ho x hx).2.1⟩) hr]
    rfl
  · have : '@' ∉ host.data := by rcases hh with h | h <;> subst h <;> decide
    simp only [List.mem_append, List.mem_cons, not_or]
    exact ⟨this, by decide, fun h => (ho _ h).2.2 rfl, by decide, hr2⟩

theorem searchFrom_ssh_none :
    ∀ (input : List Char) (p : Nat), (p = 0 → input.head? ≠ some 'g') →
      searchFrom ssh p input = none := by
  intro input
  induction input with
  | nil =>
    intro p _
    have : run ssh ⟨p, [], fun _ => none⟩ = [] := by
      by_cases hp : p = 0 <;> simp [ssh, run_seq, run_bol, hp, str, lits, run_char_nil]
    simp [searchFrom, this]
  | cons x xs ih =>
    intro p h
    have : run ssh ⟨p, x :: xs, fun _ => none⟩ = [] := by
      by_cases hp : p = 0
      · have hx : ¬ x = 'g' := fun e => h hp (by simp [e])
        simp [ssh, run_seq, run_bol, hp, str, lits, run_char_cons, hx]
      · simp [ssh, run_seq, run_bol, hp]
    rw [searchFrom, this]
    simp only [List.head?_nil]
    exact ih (p + 1) (fun e => absurd e (by omega))

theorem searchFrom_of_head (re : Regex) (p : Nat) (input : List Char) (st : MState)
    (h : (run re ⟨p, input, fun _ => none⟩).head? = some st) :
    searchFrom re p input = some (p, input, st) := by
  cases input <;> simp [searchFrom, h]

theorem find_of_search (re : Regex) (s : String) (st : MState) (d o : String)
    (h : (run re ⟨0, s.data, fun _ => none⟩).head? = some st)
    (h1 : st.caps 1 = some d.data) (h2 : st.caps 2 = some o.data) :
    ∃ w, FindStringSubmatch re 2 s = some [w, d, o] := by
  refine ⟨String.mk (s.data.take (st.pos - 0)), ?_⟩
  unfold FindStringSubmatch
  rw [searchFrom_of_head re 0 s.data st h]
  simp [List.range, List.range.loop, h1, h2]

theorem find_none_of_search (re : Regex) (out : String)
    (h : searchFrom re 0 out.data = none) : FindStringSubmatch re 2 out = none := by
  unfold FindStringSubmatch
  rw [h]

theorem infer_of_ssh (out host org : String)
    (hh : host = "github.com" ∨ host = "bitbucket.org")
    (h : ∃ w, FindStringSubmatch ssh 2 out = some [w, host, org]) :
    InferOrganizationFromGitRemotes (.ok out) = .returned (providerOf host, org, none) := by
  obtain ⟨w, h⟩ := h
  unfold InferOrganizationFromGitRemotes
  simp only [h]
  rcases hh with e | e <;> subst e <;> simp [providerOf]

theorem infer_of_https (out host org : String)
    (hh : host = "github.com" ∨ host = "bitbucket.org")
    (h0 : FindStringSubmatch ssh 2 out = none)
    (h : ∃ w, FindStringSubmatch https 2 out = some [w, host, org]) :
    InferOrganizationFromGitRemotes (.ok out) = .returned (providerOf host, org, none) := by
  obtain ⟨w, h⟩ := h
  unfold InferOrganizationFromGitRemotes
  simp only [h0, h]
  rcases hh with e | e <;> subst e <;> simp [providerOf]

theorem tail_not_mem (repo : String) (nl : Bool) (d : Char) (hd : d ≠ '\n')
    (h : d ∉ repo.data) : d ∉ repo.data ++ (if nl then "\n" else "").data := by
  cases nl
  · simpa using h
  · simp only [List.mem_append, not_or]
    refine ⟨h, ?_⟩
    intro hm
    have : d = '\n' := by simpa using hm
    exact hd this

/-- C1. For `git@<host>:<org>/<repo>`, `https://<host>/<org>/<repo>` and
`https://<user>@<host>/<org>/<repo>`, with or without a final newline, `<host>`
one of `github.com` and `bitbucket.org`, and `<user>`, `<org>`, `<repo>` free of
`/`, `@`, `:` and newline, `InferOrganizationFromGitRemotes` returns a nil
error, the provider of the host and exactly `<org>`. -/
theorem infer_known_remote (host user org repo : String) (nl : Bool)
    (hh : host = "github.com" ∨ host = "bitbucket.org")
    (hu : plainName user) (ho : plainName org) (hr : plainName repo) :
    InferOrganizationFromGitRemotes
        (.ok ("git@" ++ host ++ ":" ++ org ++ "/" ++ repo ++ (if nl then "\n" else "")))
      = .returned (providerOf host, org, none) ∧
    InferOrganizationFromGitRemotes
        (.ok ("https://" ++ host ++ "/" ++ org ++ "/" ++ repo ++ (if nl then "\n" else "")))
      = .returned (providerOf host, org, none) ∧
    InferOrganizationFromGitRemotes
        (.ok ("https://" ++ user ++ "@" ++ host ++ "/" ++ org ++ "/" ++ repo ++
          (if nl then "\n" else "")))
      = .returned (providerOf host, org, none) := by
  have ho1 : ∀ x ∈ org.data, x ≠ '\n' ∧ x ≠ '/' := fun x hx => ⟨(ho x hx).2.2.2, (ho x hx).1⟩
  have ho2 : ∀ x ∈ org.data, x ≠ '\n' ∧ x ≠ '/' ∧ x ≠ '@' :=
    fun x hx => ⟨(ho x hx).2.2.2, (ho x hx).1, (ho x hx).2.1⟩
  have hu1 : ∀ x ∈ user.data, x ≠ '\n' ∧ x ≠ '@' := fun x hx => ⟨(hu x hx).2.2.2, (hu x hx).2.1⟩
  have hr1 : '/' ∉ repo.data ++ (if nl then "\n" else "").data :=
    tail_not_mem repo nl '/' (by decide) (fun h => (hr _ h).1 rfl)
  have hr2 : '@' ∉ repo.data ++ (if nl then "\n" else "").data :=
    tail_not_mem repo nl '@' (by decide) (fun h => (hr _ h).2.1 rfl)
  refine ⟨?_, ?_, ?_⟩
  · have h := run_ssh_form host hh org.data _ ho1 hr1
    have hd : ("git@" ++ host ++ ":" ++ org ++ "/" ++ repo ++ (if nl then "\n" else "")).data
        = "git@".data ++ (host.data ++ ':' :: (org.data ++ '/' ::
            (repo.data ++ (if nl then "\n" else "").data))) := by
      simp [String.data_append]
    exact infer_of_ssh _ host org hh
      (find_of_search ssh _ _ host org (by rw [hd, h]; rfl) (by simp [setCap]) (by simp [setCap]))
  · have hd : ("https://" ++ host ++ "/" ++ org ++ "/" ++ repo ++ (if nl then "\n" else "")).data
        = "https://".data ++ (host.data ++ '/' :: (org.data ++ '/' ::
            (repo.data ++ (if nl then "\n" else "").data))) := by
      simp [String.data_append]
    have h := run_https_form host hh org.data _ ho2 hr1 hr2
    exact infer_of_https _ host org hh
      (find_none_of_search ssh _ (searchFrom_ssh_none _ 0 (by
        rw [hd]
        intro _ h
        have h1 : some 'h' = some 'g' := h
        exact absurd h1 (by decide))))
      (find_of_search https _ _ host org (by rw [hd, h]; rfl) (by simp [setCap])
        (by simp [setCap]))
  · have hd : ("https://" ++ user ++ "@" ++ host ++ "/" ++ org ++ "/" ++ repo ++
          (if nl then "\n" else "")).data
        = "https://".data ++ (user.data ++ '@' :: (host.data ++ '/' :: (org.data ++ '/' ::
            (repo.data ++ (if nl then "\n" else "").data)))) := by
      simp [String.data_append]
    have h := run_https_user_form host hh user.data org.data _ hu1 ho2 hr1 hr2
    exact infer_of_https _ host org hh
      (find_none_of_search ssh _ (searchFrom_ssh_none _ 0 (by
        rw [hd]
        intro _ h
        have h1 : some 'h' = some 'g' := h
        exact absurd h1 (by decide))))
      (find_of_search https _ _ host org (by rw [hd]; exact h) (by simp [setCap])
        (by simp [setCap]))

theorem infer_known_remote_witness :
    InferOrganizationFromGitRemotes (.ok "git@github.com:circleci/api-service.git")
      = .returned ("GITHUB", "circleci", none) ∧
    InferOrganizationFromGitRemotes (.ok "https://marco@bitbucket.org/dellelce/makefile_sh.git")
      = .returned ("BITBUCKET", "dellelce", none) :=
  ⟨(infer_known_remote "github.com" "marco" "circleci" "api-service.git" false
      (by decide) (by decide) (by decide) (by decide)).1,
   (infer_known_remote "bitbucket.org" "marco" "dellelce" "makefile_sh.git" false
      (by decide) (by decide) (by decide) (by decide)).2.2⟩

theorem starLoop_caps (n : Nat) (step : MState → List MState)
    (hstep : ∀ s t, t ∈ step s → t.caps n = s.caps n) :
    ∀ (fuel : Nat) (s t : MState), t ∈ starLoop step fuel s → t.caps n = s.caps n := by
  intro fuel
  induction fuel with
  | zero =>
    intro s t h
    simp only [starLoop, List.mem_singleton] at h
    rw [h]
  | succ k ih =>
    intro s t h
    simp only [starLoop, List.mem_append, List.mem_flatMap, List.mem_filter,
      List.mem_singleton] at h
    rcases h with ⟨u, ⟨hu, _⟩, ht⟩ | h
    · rw [ih u t ht, hstep s u hu]
    · rw [h]

theorem run_caps (n : Nat) :
    ∀ (r : Regex), r.noGroup n = true → ∀ (s t : MState), t ∈ run r s → t.caps n = s.caps n := by
  intro r
  induction r with
  | empty => intro _ s t h; simp only [run_empty, List.mem_singleton] at h; rw [h]
  | bol =>
    intro _ s t h
    rw [run_bol] at h
    split at h
    · simp only [List.mem_singleton] at h; rw [h]
    · simp at h
  | char c =>
    intro _ s t h
    obtain ⟨p, r, cp⟩ := s
    cases r with
    | nil => simp [run_char_nil] at h
    | cons x xs =>
      rw [run_char_cons] at h
      split at h
      · simp only [List.mem_singleton] at h; rw [h]
      · simp at h
  | anyNotNL =>
    intro _ s t h
    obtain ⟨p, r, cp⟩ := s
    cases r with
    | nil => simp [run_any_nil] at h
    | cons x xs =>
      rw [run_any_cons] at h
      split at h
      · simp at h
      · simp only [List.mem_singleton] at h; rw [h]
  | seq a b iha ihb =>
    intro hg s t h
    simp only [Regex.noGroup, Bool.and_eq_true] at hg
    simp only [run_seq, List.mem_flatMap] at h
    obtain ⟨u, hu, ht⟩ := h
    rw [ihb hg.2 u t ht, iha hg.1 s u hu]
  | alt a b iha ihb =>
    intro hg s t h
    simp only [Regex.noGroup, Bool.and_eq_true] at hg
    simp only [run_alt, List.mem_append] at h
    rcases h with h | h
    · exact iha hg.1 s t h
    · exact ihb hg.2 s t h
  | star a iha =>
    intro hg s t h
    simp only [Regex.noGroup] at hg
    exact starLoop_caps n (run a) (iha hg) _ s t h
  | opt a iha =>
    intro hg s t h
    simp only [Regex.noGroup] at hg
    simp only [run_opt, List.mem_append, List.mem_singleton] at h
    rcases h with h | h
    · exact iha hg s t h
    · rw [h]
  | group m a iha =>
    intro hg s t h
    simp only [Regex.noGroup, Bool.and_eq_true, bne_iff_ne, ne_eq] at hg
    simp only [run_group, List.mem_map] at h
    obtain ⟨u, hu, rfl⟩ := h
    simp only [setCap]
    rw [if_neg (fun e => hg.1 e.symm)]
    exact iha hg.2 s u hu

theorem run_lits_mem (c : Nat → Option (List Char)) :
    ∀ (l r : List Char) (p : Nat) (t : MState), t ∈ run (lits l) ⟨p, r, c⟩ →
      r = l ++ t.rest ∧ t.pos = p + l.length := by
  intro l
  induction l with
  | nil =>
    intro r p t h
    simp only [lits, run_empty, List.mem_singleton] at h
    subst h
    simp
  | cons x xs ih =>
    intro r p t h
    cases r with
    | nil => simp [lits, run_seq, run_char_nil] at h
    | cons y ys =>
      simp only [lits, run_seq, run_char_cons] at h
      by_cases e : y = x
      · simp only [e, if_true, List.flatMap_cons, List.flatMap_nil, List.append_nil] at h
        obtain ⟨h1, h2⟩ := ih ys (p + 1) t h
        subst e
        refine ⟨by rw [h1]; simp, by rw [h2]; simp; omega⟩
      · simp [e] at h

/-- Every thread that leaves the domain group has one of the two domains in group 1. -/
theorem run_domainGroup_caps (s t : MState) (h : t ∈ run domainGroup s) :
    t.caps 1 = some "github.com".data ∨ t.caps 1 = some "bitbucket.org".data := by
  obtain ⟨p, r, c⟩ := s
  simp only [domainGroup, run_group, run_alt, List.mem_map, List.mem_append, str] at h
  obtain ⟨u, hu, rfl⟩ := h
  rcases hu with hu | hu
  · obtain ⟨h1, h2⟩ := run_lits_mem c _ r p u hu
    left
    simp [setCap, h1, h2]
  · obtain ⟨h1, h2⟩ := run_lits_mem c _ r p u hu
    right
    simp [setCap, h1, h2]

theorem run_ssh_caps (s t : MState) (h : t ∈ run ssh s) :
    (t.caps 1 = some "github.com".data ∨ t.caps 1 = some "bitbucket.org".data) ∧
      ∃ o, t.caps 2 = some o := by
  simp only [ssh, run_seq, List.mem_flatMap] at h
  obtain ⟨s1, _, s2, _, s3, h3, s4, h4, s5, h5, h6⟩ := h
  have e4 := run_caps 1 (.char ':') rfl s3 s4 h4
  have e5 := run_caps 1 (.group 2 (.star .anyNotNL)) rfl s4 s5 h5
  have e6 := run_caps 1 (.char '/') rfl s5 t h6
  have e7 := run_caps 2 (.char '/') rfl s5 t h6
  refine ⟨?_, ?_⟩
  · rw [e6, e5, e4]; exact run_domainGroup_caps s2 s3 h3
  · simp only [run_group, List.mem_map] at h5
    obtain ⟨u, _, rfl⟩ := h5
    refine ⟨List.take (u.pos - s4.pos) s4.rest, ?_⟩
    rw [e7]
    simp [setCap]

theorem run_https_caps (s t : MState) (h : t ∈ run https s) :
    (t.caps 1 = some "github.com".data ∨ t.caps 1 = some "bitbucket.org".data) ∧
      ∃ o, t.caps 2 = some o := by
  simp only [https, run_seq, List.mem_flatMap] at h
  obtain ⟨s1, _, s2, _, s3, h3, s4, h4, s5, h5, h6⟩ := h
  have e4 := run_caps 1 (.char '/') rfl s3 s4 h4
  have e5 := run_caps 1 (.group 2 (.star .anyNotNL)) rfl s4 s5 h5
  have e6 := run_caps 1 (.char '/') rfl s5 t h6
  have e7 := run_caps 2 (.char '/') rfl s5 t h6
  refine ⟨?_, ?_⟩
  · rw [e6, e5, e4]; exact run_domainGroup_caps s2 s3 h3
  · simp only [run_group, List.mem_map] at h5
    obtain ⟨u, _, rfl⟩ := h5
    refine ⟨List.take (u.pos - s4.pos) s4.rest, ?_⟩
    rw [e7]
    simp [setCap]

theorem searchFrom_mem (re : Regex) :
    ∀ (input : List Char) (p start : Nat) (input1 : List Char) (st : MState),
      searchFrom re p input = some (start, input1, st) →
        st ∈ run re ⟨start, input1, fun _ => none⟩ := by
  intro input
  induction input with
  | nil =>
    intro p start input1 st h
    rw [searchFrom] at h
    cases hh : (run re ⟨p, [], fun _ => none⟩).head? with
    | none => simp [hh] at h
    | some u =>
      simp only [hh, Option.some.injEq, Prod.mk.injEq] at h
      obtain ⟨rfl, rfl, rfl⟩ := h
      exact List.mem_of_mem_head? hh
  | cons x xs ih =>
    intro p start input1 st h
    rw [searchFrom] at h
    cases hh : (run re ⟨p, x :: xs, fun _ => none⟩).head? with
    | none =>
      simp only [hh] at h
      exact ih _ _ _ _ h
    | some u =>
      simp only [hh, Option.some.injEq, Prod.mk.injEq] at h
      obtain ⟨rfl, rfl, rfl⟩ := h
      exact List.mem_of_mem_head? hh

/-- What `FindStringSubmatch` can return for a pattern whose threads carry a
known domain in group 1 and some text in group 2. -/
theorem find_shape (re : Regex)
    (hre : ∀ s t, t ∈ run re s →
      (t.caps 1 = some "github.com".data ∨ t.caps 1 = some "bitbucket.org".data) ∧
        ∃ o, t.caps 2 = some o)
    (out : String) (ms : List String) (h : FindStringSubmatch re 2 out = some ms) :
    ∃ w d o, ms = [w, d, o] ∧ (d = "github.com" ∨ d = "bitbucket.org") := by
  unfold FindStringSubmatch at h
  cases hs : searchFrom re 0 out.data with
  | none => simp [hs] at h
  | some r =>
    obtain ⟨start, input1, st⟩ := r
    simp only [hs, Option.some.injEq] at h
    obtain ⟨hd, o, ho⟩ := hre _ _ (searchFrom_mem re _ _ _ _ _ hs)
    refine ⟨String.mk (List.take (st.pos - start) input1), String.mk ((st.caps 1).getD []), String.mk ((st.caps 2).getD []), ?_, ?_⟩
    · rw [← h]; simp [List.range, List.range.loop]
    · rcases hd with e | e
      · left; rw [e]; rfl
      · right; rw [e]; rfl

theorem infer_of_none (out : String) (h0 : FindStringSubmatch ssh 2 out = none)
    (h1 : FindStringSubmatch https 2 out = none) :
    InferOrganizationFromGitRemotes (.ok out) = .returned ("", "", some (.new
      "Unable to determine VCS information from git \x27origin\x27 remote")) := by
  unfold InferOrganizationFromGitRemotes
  simp only [h0, h1]

theorem providerOf_cases (d : String) : providerOf d = GitHub ∨ providerOf d = BitBucket := by
  unfold providerOf
  split
  · exact Or.inl rfl
  · exact Or.inr rfl

/-- The three ways `InferOrganizationFromGitRemotes` can end on an output. -/
theorem infer_cases (out : String) :
    (∃ ms w d o, (FindStringSubmatch ssh 2 out = some ms ∨
          (FindStringSubmatch ssh 2 out = none ∧ FindStringSubmatch https 2 out = some ms)) ∧
        ms = [w, d, o] ∧ (d = "github.com" ∨ d = "bitbucket.org") ∧
        InferOrganizationFromGitRemotes (.ok out) = .returned (providerOf d, o, none)) ∨
    (FindStringSubmatch ssh 2 out = none ∧ FindStringSubmatch https 2 out = none ∧
      InferOrganizationFromGitRemotes (.ok out) = .returned ("", "", some (.new
        "Unable to determine VCS information from git \x27origin\x27 remote"))) := by
  cases h0 : FindStringSubmatch ssh 2 out with
  | some ms =>
    obtain ⟨w, d, o, rfl, hd⟩ := find_shape ssh run_ssh_caps out ms h0
    exact Or.inl ⟨_, w, d, o, Or.inl rfl, rfl, hd, infer_of_ssh out d o hd ⟨w, h0⟩⟩
  | none =>
    cases h1 : FindStringSubmatch https 2 out with
    | some ms =>
      obtain ⟨w, d, o, rfl, hd⟩ := find_shape https run_https_caps out ms h1
      exact Or.inl ⟨_, w, d, o, Or.inr ⟨rfl, rfl⟩, rfl, hd, infer_of_https out d o hd h0 ⟨w, h1⟩⟩
    | none => exact Or.inr ⟨rfl, rfl, infer_of_none out h0 h1⟩

/-- C9. On every output of `git remote get-url origin` the function returns and
never reaches the panic: a match of either pattern carries `github.com` or
`bitbucket.org` as its domain, the result then has a nil error and the provider
GITHUB or BITBUCKET, and an error is returned exactly when neither pattern
matches. -/
theorem infer_never_panics (out : String) :
    (∀ msg, InferOrganizationFromGitRemotes (.ok out) ≠ .panicked msg) ∧
    (∀ ms, (FindStringSubmatch ssh 2 out = some ms ∨ FindStringSubmatch https 2 out = some ms) →
      ms[1]? = some "github.com" ∨ ms[1]? = some "bitbucket.org") ∧
    ((FindStringSubmatch ssh 2 out ≠ none ∨ FindStringSubmatch https 2 out ≠ none) →
      ∃ org, InferOrganizationFromGitRemotes (.ok out) = .returned (GitHub, org, none) ∨
        InferOrganizationFromGitRemotes (.ok out) = .returned (BitBucket, org, none)) ∧
    ((∃ v org e, InferOrganizationFromGitRemotes (.ok out) = .returned (v, org, some e)) ↔
      (FindStringSubmatch ssh 2 out = none ∧ FindStringSubmatch https 2 out = none)) := by
  refine ⟨?_, ?_, ?_, ?_⟩
  · intro msg
    rcases infer_cases out with ⟨ms, w, d, o, _, _, _, h⟩ | ⟨_, _, h⟩ <;> rw [h] <;> simp
  · intro ms h
    rcases h with h | h
    · obtain ⟨w, d, o, rfl, hd⟩ := find_shape ssh run_ssh_caps out ms h
      rcases hd with e | e <;> simp [e]
    · obtain ⟨w, d, o, rfl, hd⟩ := find_shape https run_https_caps out ms h
      rcases hd with e | e <;> simp [e]
  · intro hm
    rcases infer_cases out with ⟨ms, w, d, o, _, _, _, h⟩ | ⟨h0, h1, _⟩
    · refine ⟨o, ?_⟩
      rcases providerOf_cases d with e | e
      · left; rw [h, e]
      · right; rw [h, e]
    · rcases hm with hm | hm
      · exact absurd h0 hm
      · exact absurd h1 hm
  · constructor
    · rintro ⟨v, org, e, he⟩
      rcases infer_cases out with ⟨ms, w, d, o, _, _, _, h⟩ | ⟨h0, h1, _⟩
      · rw [h] at he
        simp at he
      · exact ⟨h0, h1⟩
    · rintro ⟨h0, h1⟩
      exact ⟨_, _, _, infer_of_none out h0 h1⟩

/-! ## Remotes on which the patterns match more than the two URL forms -/

/-- C3, the code on a path with two segments after the organization, and on a
path that ends in `/`: the organization returned runs to the last `/`. -/
theorem infer_extra_segment :
    InferOrganizationFromGitRemotes (.ok "git@github.com:circleci/team/api-service.git")
        = .returned ("GITHUB", "circleci/team", none) ∧
      InferOrganizationFromGitRemotes (.ok "https://github.com/circleci/team/api-service.git")
        = .returned ("GITHUB", "circleci/team", none) ∧
      InferOrganizationFromGitRemotes (.ok "https://github.com/circleci/circleci-cli/\n")
        = .returned ("GITHUB", "circleci/circleci-cli", none) := by
  decide

/-- C2, the code on remotes whose host is `ghproxy.com` and `gitlab.com`, and on
an output that is no URL: the HTTPS pattern matches further inside the text
and a provider and an organization are returned with a nil error. -/
theorem infer_unknown_host :
    InferOrganizationFromGitRemotes
        (.ok "https://ghproxy.com/https://github.com/circleci/circleci-cli.git\n")
        = .returned ("GITHUB", "circleci", none) ∧
      InferOrganizationFromGitRemotes (.ok "git@gitlab.com:mirror/https://github.com/circleci/cli")
        = .returned ("GITHUB", "circleci", none) ∧
      InferOrganizationFromGitRemotes (.ok "see https://bitbucket.org/dellelce/makefile_sh")
        = .returned ("BITBUCKET", "dellelce", none) := by
  decide

/-! ## The context lookup and the API operations -/

theorem firstNamed_eq_none (n : String) :
    ∀ es : List Edge, firstNamed es n = none ↔ ∀ e ∈ es, e.Node.Name ≠ n := by
  intro es
  induction es with
  | nil => simp [firstNamed]
  | cons c cs ih =>
    by_cases h : c.Node.Name = n
    · simp [firstNamed, h]
    · simp [firstNamed, h, ih]

theorem firstNamed_first (n : String) (e : Edge) (post : List Edge) (he : e.Node.Name = n) :
    ∀ pre : List Edge, (∀ x ∈ pre, x.Node.Name ≠ n) →
      firstNamed (pre ++ e :: post) n = some e.Node := by
  intro pre
  induction pre with
  | nil => intro _; simp [firstNamed, he]
  | cons c cs ih =>
    intro h
    have hc : ¬ c.Node.Name = n := h c (by simp)
    simp only [List.cons_append, firstNamed, hc, if_false]
    exact ih (fun x hx => h x (by simp [hx]))

theorem contains_mid (a b c : String) : Contains (a ++ b ++ c) b := ⟨a, c, rfl⟩

theorem notFound_contains (n : String) (org : Organization) :
    Contains ("Could not find a context named \x27" ++ n ++ "\x27 in the \x27" ++
        org.format ++ "\x27 organization.") n ∧
      Contains ("Could not find a context named \x27" ++ n ++ "\x27 in the \x27" ++
        org.format ++ "\x27 organization.") org.name := by
  constructor
  · refine ⟨"Could not find a context named \x27",
      "\x27 in the \x27" ++ org.format ++ "\x27 organization.", ?_⟩
    simp [String.append_assoc]
  · refine ⟨"Could not find a context named \x27" ++ n ++ "\x27 in the \x27" ++ "\x7b",
      " " ++ org.provider ++ "\x7d" ++ "\x27 organization.", ?_⟩
    apply String.ext
    simp [Organization.format, String.data_append, List.append_assoc]

/-- C4. On a successful List response `contextByName` returns, with a nil
error, the node of the first edge whose `Name` is the name asked for, as it
stands in the response; it returns an error exactly when no context of the
response has that name, and the message of that error contains the name and
the name of the organization.  When List fails, it returns the error of List. -/
theorem contextByName_spec (cl : Client) (org : Organization) (n : String) (tr : List Request) :
    (∀ resp, (ListContexts cl org.name org.provider tr).1 = .ok resp →
      (∀ pre e post, resp.Organization.Contexts.Edges = pre ++ e :: post →
          e.Node.Name = n → (∀ x ∈ pre, x.Node.Name ≠ n) →
          (contextByName cl org n tr).1 = .ok e.Node) ∧
      ((∃ err, (contextByName cl org n tr).1 = .error err) ↔
        ∀ e ∈ resp.Organization.Contexts.Edges, e.Node.Name ≠ n) ∧
      (∀ err, (contextByName cl org n tr).1 = .error err →
        Contains err.Error n ∧ Contains err.Error org.name)) ∧
    (∀ err, (ListContexts cl org.name org.provider tr).1 = .error err →
      (contextByName cl org n tr).1 = .error err) := by
  unfold contextByName
  rcases hl : ListContexts cl org.name org.provider tr with ⟨r, tr1⟩
  cases r with
  | error e0 =>
    refine ⟨fun resp h => by simp at h, fun err h => ?_⟩
    simp only [Except.error.injEq] at h
    simp [h]
  | ok contexts =>
    refine ⟨fun resp h => ?_, fun err h => by simp at h⟩
    simp only [Except.ok.injEq] at h
    subst h
    cases hf : firstNamed contexts.Organization.Contexts.Edges n with
    | none =>
      have hnone := (firstNamed_eq_none n _).mp hf
      simp only [hf]
      refine ⟨?_, ?_, ?_⟩
      · intro pre e post hsplit he _
        exact absurd he (hnone e (by rw [hsplit]; simp))
      · simp only [Except.error.injEq, exists_eq', true_iff]
        exact hnone
      · intro err herr
        simp only [Except.error.injEq] at herr
        subst herr
        exact notFound_contains n org
    | some c =>
      simp only [hf]
      refine ⟨?_, ?_, ?_⟩
      · intro pre e post hsplit he hpre
        rw [hsplit, firstNamed_first n e post he pre hpre] at hf
        simp only [Option.some.injEq] at hf
        simp [hf]
      · constructor
        · rintro ⟨err, herr⟩
          simp at herr
        · intro hall
          rw [(firstNamed_eq_none n _).mpr hall] at hf
          simp at hf
      · intro err herr
        simp at herr

/-- C4, the example of the claim: with contexts named `a` and `b`, looking up `b`
returns the context with the id of `b`, and looking up `c` fails. -/
theorem contextByName_witness :
    (contextByName (exampleClient "") exampleOrg "b" []).1
        = .ok ⟨"id-b", "b", "2019-02-01", []⟩ ∧
      ∃ err, (contextByName (exampleClient "") exampleOrg "c" []).1 = .error err :=
  ⟨((contextByName_spec (exampleClient "") exampleOrg "b" []).1 exampleContexts rfl).1
      [⟨⟨"id-a", "a", "2019-01-01", [⟨"KEY", "2019-01-02", "xxxx1234"⟩]⟩⟩]
      ⟨⟨"id-b", "b", "2019-02-01", []⟩⟩ [] rfl rfl (by decide),
    ((contextByName_spec (exampleClient "") exampleOrg "c" []).1 exampleContexts rfl).2.1.mpr
      (by decide)⟩

theorem listContexts_trace (cl : Client) (orgName : String) (vcsType : VcsType)
    (tr : List Request) :
    (ListContexts cl orgName vcsType tr).2 = tr ++ [listRequest cl orgName vcsType] := by
  cases h : cl.runContexts tr (listRequest cl orgName vcsType) <;> simp [ListContexts, h]

theorem listContexts_ok (cl : Client) (orgName : String) (vcsType : VcsType)
    (tr : List Request) (resp : ContextsQueryResponse)
    (h : cl.runContexts tr (listRequest cl orgName vcsType) = .ok resp) :
    ListContexts cl orgName vcsType tr = (.ok resp, tr ++ [listRequest cl orgName vcsType]) := by
  unfold ListContexts
  simp only [h]

/-- C5. When the List round trip and the transport call of the mutation both
return no error, `CreateContext` returns nil exactly when the error type of the
mutation response is empty, and for a non-empty type `t` an error whose message
is `Error creating context: ` followed by `t`. -/
theorem createContext_error_type (cl : Client) (contextName orgName : String)
    (vcsType : VcsType) (tr : List Request) (contexts : ContextsQueryResponse)
    (response : CreateContextResponse)
    (hl : cl.runContexts tr (listRequest cl orgName vcsType) = .ok contexts)
    (hm : cl.runCreateContext (tr ++ [listRequest cl orgName vcsType])
      (createRequest cl contexts.Organization.Id contextName) = .ok response) :
    ((CreateContext cl contextName orgName vcsType tr).1 = none ↔
      response.CreateContext.Error.Typ = "") ∧
    (response.CreateContext.Error.Typ ≠ "" →
      ∃ err, (CreateContext cl contextName orgName vcsType tr).1 = some err ∧
        err.Error = "Error creating context: " ++ response.CreateContext.Error.Typ) := by
  unfold CreateContext
  rw [listContexts_ok cl orgName vcsType tr contexts hl]
  simp only [hm]
  by_cases ht : response.CreateContext.Error.Typ = ""
  · simp [ht]
  · simp [ht, GoError.Error]

theorem createContext_error_type_witness :
    ((CreateContext (exampleClient "DUPLICATE") "ctx" "circleci" GitHub []).1 = none ↔
      "DUPLICATE" = "") ∧
    ("DUPLICATE" ≠ "" →
      ∃ err, (CreateContext (exampleClient "DUPLICATE") "ctx" "circleci" GitHub []).1 = some err ∧
        err.Error = "Error creating context: " ++ "DUPLICATE") :=
  createContext_error_type (exampleClient "DUPLICATE") "ctx" "circleci" GitHub []
    exampleContexts ⟨⟨⟨"DUPLICATE"⟩⟩⟩ rfl rfl

/-- C6. The function `CreateContext` first performs List for the organization
name and provider.  If List fails it returns the error of List and sends
nothing more.  If List succeeds it sends exactly one mutation, whose input has
`ownerId` the `Organization.Id` of the List response, `ownerType` the string
`ORGANIZATION` and `contextName` the name given; a transport error of that
mutation is returned as it is. -/
theorem createContext_requests (cl : Client) (contextName orgName : String)
    (vcsType : VcsType) (tr : List Request) :
    (∀ err, (ListContexts cl orgName vcsType tr).1 = .error err →
      CreateContext cl contextName orgName vcsType tr
        = (some err, tr ++ [listRequest cl orgName vcsType])) ∧
    (∀ contexts, (ListContexts cl orgName vcsType tr).1 = .ok contexts →
      (CreateContext cl contextName orgName vcsType tr).2 =
        tr ++ [listRequest cl orgName vcsType,
          ⟨createContextQuery, cl.Token,
            [("input", .obj [("ownerId", contexts.Organization.Id),
              ("ownerType", "ORGANIZATION"), ("contextName", contextName)])]⟩] ∧
      ∀ err, cl.runCreateContext (tr ++ [listRequest cl orgName vcsType])
          ⟨createContextQuery, cl.Token,
            [("input", .obj [("ownerId", contexts.Organization.Id),
              ("ownerType", "ORGANIZATION"), ("contextName", contextName)])]⟩ = .error err →
        (CreateContext cl contextName orgName vcsType tr).1 = some err) := by
  have htr := listContexts_trace cl orgName vcsType tr
  unfold CreateContext
  rcases hl : ListContexts cl orgName vcsType tr with ⟨r, tr1⟩
  rw [hl] at htr
  simp only at htr
  subst htr
  cases r with
  | error e0 =>
    refine ⟨fun err h => ?_, fun contexts h => by simp at h⟩
    simp only [Except.error.injEq] at h
    simp [h]
  | ok resp =>
    refine ⟨fun err h => by simp at h, fun contexts h => ?_⟩
    simp only [Except.ok.injEq] at h
    subst h
    simp only [createRequest]
    constructor
    · cases hc : cl.runCreateContext (tr ++ [listRequest cl orgName vcsType])
          ⟨createContextQuery, cl.Token,
            [("input", .obj [("ownerId", resp.Organization.Id),
              ("ownerType", "ORGANIZATION"), ("contextName", contextName)])]⟩ with
      | error e => simp
      | ok response =>
        by_cases ht : response.CreateContext.Error.Typ = "" <;> simp [ht]
    · intro err herr
      simp only [herr]

/-- C6 at concrete transports: one that cannot be reached, and one that answers
List and fails the mutation. -/
theorem createContext_requests_witness :
    CreateContext offlineClient "ctx" "circleci" GitHub []
        = (some (.wrap (.new "no route") "failed to load contexts \x27no route\x27"),
            [listRequest offlineClient "circleci" GitHub]) ∧
      (CreateContext failingClient "ctx" "circleci" GitHub []).2
        = [listRequest failingClient "circleci" GitHub,
            ⟨createContextQuery, "token",
              [("input", .obj [("ownerId", "org-1"), ("ownerType", "ORGANIZATION"),
                ("contextName", "ctx")])]⟩] ∧
      (CreateContext failingClient "ctx" "circleci" GitHub []).1 = some (.new "boom") :=
  ⟨(createContext_requests offlineClient "ctx" "circleci" GitHub []).1 _ rfl,
    ((createContext_requests failingClient "ctx" "circleci" GitHub []).2 exampleContexts rfl).1,
    ((createContext_requests failingClient "ctx" "circleci" GitHub []).2 exampleContexts rfl).2
      _ rfl⟩

/-- C7. The function `StoreEnvironmentVariable` sends one mutation, whose input
is the context id, `variable` the variable name and `value` the secret value.
If the transport call fails with `e`, the result is an error whose message is a
prefix, `": "` and the message of `e`; if it succeeds, the result is nil exactly
when the error type of the payload is empty, and otherwise an error whose
message contains that type. -/
theorem storeEnvironmentVariable_spec (cl : Client) (contextId variableName secretValue : String)
    (tr : List Request) :
    (StoreEnvironmentVariable cl contextId variableName secretValue tr).2 =
      tr ++ [⟨storeEnvVarQuery, cl.Token,
        [("input", .obj [("contextId", contextId), ("variable", variableName),
          ("value", secretValue)])]⟩] ∧
    (∀ e, cl.runStoreEnvVar tr (storeEnvVarRequest cl contextId variableName secretValue)
        = .error e →
      ∃ err, (StoreEnvironmentVariable cl contextId variableName secretValue tr).1 = some err ∧
        err = .wrap e "failed to store environment varaible in context" ∧
        err.Error = "failed to store environment varaible in context" ++ ": " ++ e.Error) ∧
    (∀ response, cl.runStoreEnvVar tr (storeEnvVarRequest cl contextId variableName secretValue)
        = .ok response →
      ((StoreEnvironmentVariable cl contextId variableName secretValue tr).1 = none ↔
        response.StoreEnvironmentVariable.Error.Typ = "") ∧
      (response.StoreEnvironmentVariable.Error.Typ ≠ "" →
        ∃ err, (StoreEnvironmentVariable cl contextId variableName secretValue tr).1 = some err ∧
          err.Error = "Error storing environment variable: " ++
            response.StoreEnvironmentVariable.Error.Typ ∧
          Contains err.Error response.StoreEnvironmentVariable.Error.Typ)) := by
  unfold StoreEnvironmentVariable
  refine ⟨?_, ?_, ?_⟩
  · cases hc : cl.runStoreEnvVar tr
        (storeEnvVarRequest cl contextId variableName secretValue) with
    | error e =>
      simp only [hc]
      rfl
    | ok response =>
      simp only [hc]
      by_cases ht : response.StoreEnvironmentVariable.Error.Typ = "" <;>
        simp [ht, storeEnvVarRequest]
  · intro e he
    simp only [he]
    exact ⟨_, rfl, rfl, rfl⟩
  · intro response hr
    simp only [hr]
    by_cases ht : response.StoreEnvironmentVariable.Error.Typ = ""
    · simp [ht]
    · simp only [ht, ne_eq, not_false_eq_true, if_true, reduceCtorEq, false_iff, forall_const]
      refine ⟨trivial, _, rfl, rfl, ?_⟩
      exact ⟨"Error storing environment variable: ", "", by simp [GoError.Error]⟩

/-- C7 at concrete transports: one that fails, one whose payload has an error type. -/
theorem storeEnvironmentVariable_witness :
    (StoreEnvironmentVariable failingClient "id-a" "KEY" "secret" []).1
        = some (.wrap (.new "boom") "failed to store environment varaible in context") ∧
      (StoreEnvironmentVariable (exampleClient "") "id-a" "KEY" "secret" []).1 = none ∧
      ∃ err, (StoreEnvironmentVariable (exampleClient "LIMIT") "id-a" "KEY" "secret" []).1
        = some err ∧ err.Error = "Error storing environment variable: LIMIT" := by
  refine ⟨?_, ?_, ?_⟩
  · obtain ⟨err, h1, h2, _⟩ :=
      (storeEnvironmentVariable_spec failingClient "id-a" "KEY" "secret" []).2.1 _ rfl
    rw [h1, h2]
  · exact ((storeEnvironmentVariable_spec (exampleClient "") "id-a" "KEY" "secret" []).2.2
      _ rfl).1.mpr rfl
  · obtain ⟨err, h1, h2, _⟩ :=
      ((storeEnvironmentVariable_spec (exampleClient "LIMIT") "id-a" "KEY" "secret" []).2.2
        _ rfl).2 (by decide)
    exact ⟨err, h1, h2⟩

/-- C8, the code at a failing transport: the error wraps the transport error,
and the text it is wrapped with is spelled `varaible`. -/
theorem deleteEnvironmentVariable_message :
    (DeleteEnvironmentVariable failingClient "id-a" "KEY" []).1
        = some (.wrap (.new "boom") "failed to delete environment varaible") ∧
      (GoError.wrap (.new "boom") "failed to delete environment varaible").Error
        = "failed to delete environment varaible: boom" ∧
      (GoError.wrap (.new "boom") "failed to delete environment varaible").Error
        ≠ "failed to delete environment variable: boom" := by
  refine ⟨rfl, by decide, by decide⟩

theorem contextByName_trace (cl : Client) (org : Organization) (n : String)
    (tr : List Request) :
    (contextByName cl org n tr).2 = tr ++ [listRequest cl org.name org.provider] := by
  have htr := listContexts_trace cl org.name org.provider tr
  unfold contextByName
  rcases hl : ListContexts cl org.name org.provider tr with ⟨r, tr1⟩
  rw [hl] at htr
  simp only at htr
  subst htr
  cases r with
  | error e => rfl
  | ok contexts =>
    simp only []
    cases firstNamed contexts.Organization.Contexts.Edges n <;> rfl

theorem deleteEnvironmentVariable_trace (cl : Client) (contextId variableName : String)
    (tr : List Request) :
    (DeleteEnvironmentVariable cl contextId variableName tr).2
      = tr ++ [deleteEnvVarRequest cl contextId variableName] := rfl

theorem deleteContext_trace (cl : Client) (contextId : String) (tr : List Request) :
    (DeleteContext cl contextId tr).2 = tr ++ [deleteContextRequest cl contextId] := rfl

theorem storeEnvironmentVariable_trace (cl : Client) (contextId variableName secretValue : String)
    (tr : List Request) :
    (StoreEnvironmentVariable cl contextId variableName secretValue tr).2
      = tr ++ [storeEnvVarRequest cl contextId variableName secretValue] := by
  unfold StoreEnvironmentVariable
  cases hc : cl.runStoreEnvVar tr
      (storeEnvVarRequest cl contextId variableName secretValue) with
  | error e => simp only [hc]
  | ok response =>
    simp only [hc]
    by_cases ht : response.StoreEnvironmentVariable.Error.Typ = "" <;> simp [ht]

theorem createContext_sent (cl : Client) (contextName orgName : String) (vcsType : VcsType)
    (tr : List Request) :
    ∃ rest, (CreateContext cl contextName orgName vcsType tr).2
      = tr ++ listRequest cl orgName vcsType :: rest ∧ rest.length ≤ 1 := by
  have htr := listContexts_trace cl orgName vcsType tr
  unfold CreateContext
  rcases hl : ListContexts cl orgName vcsType tr with ⟨r, tr1⟩
  rw [hl] at htr
  simp only at htr
  subst htr
  cases r with
  | error e0 => exact ⟨[], rfl, by simp⟩
  | ok resp =>
    refine ⟨[createRequest cl resp.Organization.Id contextName], ?_, by simp⟩
    cases hc : cl.runCreateContext (tr ++ [listRequest cl orgName vcsType])
        (createRequest cl resp.Organization.Id contextName) with
    | error e => simp [hc]
    | ok response =>
      simp only [hc]
      by_cases ht : response.CreateContext.Error.Typ = "" <;> simp [ht]

/-- C10 as stated fails: the lookup of the context `a` succeeds, yet `storeEnvVar`
sends no mutation, because reading the secret value from a terminal whose
input ends before a newline returns an error. -/
theorem storeEnvVar_read_failure :
    (contextByName (exampleClient "") exampleOrg "a" []).1
        = .ok ⟨"id-a", "a", "2019-01-01", [⟨"KEY", "2019-01-02", "xxxx1234"⟩]⟩ ∧
      storeEnvVar (exampleClient "") exampleOrg "a" "KEY" closedTerminal []
        = (some (.wrap (.new "EOF") "Failed to read secret value from stdin"),
            [listRequest (exampleClient "") "circleci" "GITHUB"]) ∧
      (storeEnvVar (exampleClient "") exampleOrg "a" "KEY" closedTerminal []).2.length = 1 := by
  refine ⟨rfl, rfl, rfl⟩

/-- C10, amended. For `removeEnvVar`, `storeEnvVar` and `deleteContext`: if the
lookup by name fails (List fails or no context has the name) the operation
returns that error and only the List request was sent.  If the lookup succeeds,
`removeEnvVar` and `deleteContext` send exactly one mutation, and `storeEnvVar`
sends exactly one when the secret value is read without error and none when
reading fails (it then returns the read error, wrapped); the `contextId` of the
mutation is the ID of the context found.  Each of them, and `createContext`,
sends List first and at most one request after it. -/
theorem command_round_trips (cl : Client) (org : Organization) (contextName varName : String)
    (stdin : Stdin) (tr : List Request) :
    (∀ err, (contextByName cl org contextName tr).1 = .error err →
      removeEnvVar cl org contextName varName tr
        = (some err, tr ++ [listRequest cl org.name org.provider]) ∧
      storeEnvVar cl org contextName varName stdin tr
        = (some err, tr ++ [listRequest cl org.name org.provider]) ∧
      deleteContext cl org contextName tr
        = (some err, tr ++ [listRequest cl org.name org.provider])) ∧
    (∀ c, (contextByName cl org contextName tr).1 = .ok c →
      (removeEnvVar cl org contextName varName tr).2
        = tr ++ [listRequest cl org.name org.provider,
            ⟨deleteEnvVarQuery, cl.Token,
              [("input", .obj [("contextId", c.ID), ("variable", varName)])]⟩] ∧
      (deleteContext cl org contextName tr).2
        = tr ++ [listRequest cl org.name org.provider,
            ⟨deleteContextQuery, cl.Token, [("input", .obj [("contextId", c.ID)])]⟩] ∧
      (∀ v, readSecretValue stdin = (v, none) →
        (storeEnvVar cl org contextName varName stdin tr).2
          = tr ++ [listRequest cl org.name org.provider,
              ⟨storeEnvVarQuery, cl.Token,
                [("input", .obj [("contextId", c.ID), ("variable", varName), ("value", v)])]⟩]) ∧
      (∀ v e, readSecretValue stdin = (v, some e) →
        storeEnvVar cl org contextName varName stdin tr
          = (some (.wrap e "Failed to read secret value from stdin"),
              tr ++ [listRequest cl org.name org.provider]))) ∧
    (∀ op ∈ [removeEnvVar cl org contextName varName tr,
        storeEnvVar cl org contextName varName stdin tr,
        deleteContext cl org contextName tr,
        createContext cl org contextName tr],
      ∃ rest, op.2 = tr ++ listRequest cl org.name org.provider :: rest ∧ rest.length ≤ 1) := by
  have htr := contextByName_trace cl org contextName tr
  have hparts :
      (∀ err, (contextByName cl org contextName tr).1 = .error err →
        removeEnvVar cl org contextName varName tr
          = (some err, tr ++ [listRequest cl org.name org.provider]) ∧
        storeEnvVar cl org contextName varName stdin tr
          = (some err, tr ++ [listRequest cl org.name org.provider]) ∧
        deleteContext cl org contextName tr
          = (some err, tr ++ [listRequest cl org.name org.provider])) ∧
      (∀ c, (contextByName cl org contextName tr).1 = .ok c →
        (removeEnvVar cl org contextName varName tr).2
          = tr ++ [listRequest cl org.name org.provider,
              deleteEnvVarRequest cl c.ID varName] ∧
        (deleteContext cl org contextName tr).2
          = tr ++ [listRequest cl org.name org.provider, deleteContextRequest cl c.ID] ∧
        (∀ v, readSecretValue stdin = (v, none) →
          (storeEnvVar cl org contextName varName stdin tr).2
            = tr ++ [listRequest cl org.name org.provider,
                storeEnvVarRequest cl c.ID varName v]) ∧
        (∀ v e, readSecretValue stdin = (v, some e) →
          storeEnvVar cl org contextName varName stdin tr
            = (some (.wrap e "Failed to read secret value from stdin"),
                tr ++ [listRequest cl org.name org.provider]))) := by
    unfold removeEnvVar storeEnvVar deleteContext
    rcases hc : contextByName cl org contextName tr with ⟨r, tr1⟩
    rw [hc] at htr
    simp only at htr
    subst htr
    cases r with
    | error e0 =>
      refine ⟨fun err h => ?_, fun c h => by simp at h⟩
      simp only [Except.error.injEq] at h
      simp [h]
    | ok c0 =>
      refine ⟨fun err h => by simp at h, fun c h => ?_⟩
      simp only [Except.ok.injEq] at h
      subst h
      refine ⟨?_, ?_, ?_, ?_⟩
      · simp [deleteEnvironmentVariable_trace]
      · simp [deleteContext_trace]
      · intro v hv
        simp [hv, storeEnvironmentVariable_trace]
      · intro v e hv
        simp [hv, errorsWrap]
  refine ⟨hparts.1, hparts.2, ?_⟩
  have hcreate : ∃ rest, (createContext cl org contextName tr).2
      = tr ++ listRequest cl org.name org.provider :: rest ∧ rest.length ≤ 1 :=
    createContext_sent cl contextName org.name org.provider tr
  intro op hop
  simp only [List.mem_cons, List.mem_singleton, List.not_mem_nil, or_false] at hop
  cases hc : (contextByName cl org contextName tr).1 with
  | error e =>
    obtain ⟨h1, h2, h3⟩ := hparts.1 e hc
    rcases hop with rfl | rfl | rfl | rfl
    · exact ⟨[], by rw [h1], by simp⟩
    · exact ⟨[], by rw [h2], by simp⟩
    · exact ⟨[], by rw [h3], by simp⟩
    · exact hcreate
  | ok c =>
    obtain ⟨h1, h2, h3, h4⟩ := hparts.2 c hc
    rcases hop with rfl | rfl | rfl | rfl
    · exact ⟨[_], by rw [h1], by simp⟩
    · rcases hr : readSecretValue stdin with ⟨v, oe⟩
      cases oe with
      | none => exact ⟨[_], by rw [h3 v hr], by simp⟩
      | some e => exact ⟨[], by rw [h4 v e hr], by simp⟩
    · exact ⟨[_], by rw [h2], by simp⟩
    · exact hcreate

/-- C10 at a concrete transport: storing through a pipe sends List and then one
mutation for the context found, and an unknown name sends List alone. -/
theorem command_round_trips_witness :
    (storeEnvVar (exampleClient "") exampleOrg "a" "KEY" secretPipe []).2
        = [listRequest (exampleClient "") "circleci" "GITHUB",
            ⟨storeEnvVarQuery, "token",
              [("input", .obj [("contextId", "id-a"), ("variable", "KEY"),
                ("value", "secret")])]⟩] ∧
      (removeEnvVar (exampleClient "") exampleOrg "zzz" "KEY" []).2
        = [listRequest (exampleClient "") "circleci" "GITHUB"] :=
  ⟨((command_round_trips (exampleClient "") exampleOrg "a" "KEY" secretPipe []).2.1
      ⟨"id-a", "a", "2019-01-01", [⟨"KEY", "2019-01-02", "xxxx1234"⟩]⟩ rfl).2.2.1 "secret" rfl,
    congrArg Prod.snd
      ((command_round_trips (exampleClient "") exampleOrg "zzz" "KEY" secretPipe []).1
        (.new ("Could not find a context named \x27zzz\x27 in the \x27\x7bcircleci GITHUB\x7d" ++
          "\x27 organization.")) rfl).1⟩

end CircleCI
